import Mathlib

/-!
# Verification of the native-messaging host protocol (`src/host.rs`)

Shallow embedding of the framing codec of `IberAI/native-messaging`:
byte streams are `List Nat` (each element a byte value), readers are
modelled by explicit state passing (input list in, remaining list out),
and fallible operations return `Except`.

The JSON layer (`serde_json`) is an external dependency of the crate;
its compact serializer and parser are modelled here over a JSON value
type with integer numbers (`serde_json::Value` with `f64` payloads is
outside the embedding).
-/

namespace NativeMessaging

/-- 1 MB (host -> browser): `MAX_TO_BROWSER` in `host.rs`. -/
def MAX_TO_BROWSER : Nat := 1048576

/-- 64 MB (browser -> host): `MAX_FROM_BROWSER` in `host.rs`. -/
def MAX_FROM_BROWSER : Nat := 64 * 1048576

/-- Kind of an underlying I/O error (`std::io::ErrorKind`); only the
end-of-stream kind arises in the list-based stream model. -/
inductive ErrKind where
  | unexpectedEof
  deriving DecidableEq, Repr

/-- The error enum `NmError` of `host.rs`.  Error payloads that carry
foreign error objects (`FromUtf8Error`, `serde_json::Error`, tokio
errors) are modelled as bare constructors. -/
inductive NmError where
  | Disconnected
  | OutgoingTooLarge (len max : Nat)
  | IncomingTooLarge (len max : Nat)
  | IncomingNotUtf8
  | SerializeJson
  | DeserializeJson
  | IoError (kind : ErrKind)
  deriving DecidableEq, Repr

/-- `u32::from_ne_bytes` on a 4-byte buffer.  Native byte order of the
host platform, little-endian here (x86-64/aarch64 desktop hosts). -/
def u32FromNeBytes (bs : List Nat) : Nat :=
  match bs with
  | [b0, b1, b2, b3] => b0 + 256 * b1 + 65536 * b2 + 16777216 * b3
  | _ => 0

/-- `(n as u32).to_ne_bytes()`: the `% 256` projections perform the
`as u32` truncation of `host.rs` line 113. -/
def u32ToNeBytes (n : Nat) : List Nat :=
  [n % 256, n / 256 % 256, n / 65536 % 256, n / 16777216 % 256]

/-- `Read::read_exact` on a list-based stream: succeeds returning the
first `n` bytes and the rest iff at least `n` bytes remain; otherwise
the result is `ErrorKind::UnexpectedEof` (modelled as `none`), with the
stream exhausted. -/
def readExact (input : List Nat) (n : Nat) : Option (List Nat × List Nat) :=
  if n ≤ input.length then some (input.take n, input.drop n) else none

/-- Is `b` a UTF-8 continuation byte (`0x80..=0xBF`)? -/
def contB (b : Nat) : Bool := 128 ≤ b && b ≤ 191

/-- Constraint on the first continuation byte of a 3-byte sequence,
depending on the lead byte (RFC 3629 well-formedness). -/
def cont3ok (b c : Nat) : Bool :=
  if b = 224 then 160 ≤ c && c ≤ 191
  else if b = 237 then 128 ≤ c && c ≤ 159
  else contB c

/-- Constraint on the first continuation byte of a 4-byte sequence,
depending on the lead byte (RFC 3629 well-formedness). -/
def cont4ok (b c : Nat) : Bool :=
  if b = 240 then 144 ≤ c && c ≤ 191
  else if b = 244 then 128 ≤ c && c ≤ 143
  else contB c

mutual
/-- UTF-8 well-formedness of a byte sequence, as checked by
`String::from_utf8` (RFC 3629: no overlongs, no surrogates, max
U+10FFFF).  Lead bytes dispatch on their range; the helpers consume the
continuation bytes of a multi-byte scalar. -/
def validUtf8 : List Nat → Bool
  | [] => true
  | b :: rest =>
    if b ≤ 127 then validUtf8 rest
    else if 194 ≤ b && b ≤ 223 then vu1 rest
    else if 224 ≤ b && b ≤ 239 then vu3after b rest
    else if 240 ≤ b && b ≤ 244 then vu4after b rest
    else false

/-- One continuation byte, then a valid sequence. -/
def vu1 : List Nat → Bool
  | c :: r => contB c && validUtf8 r
  | [] => false

/-- Two continuation bytes, then a valid sequence. -/
def vu2 : List Nat → Bool
  | c :: r => contB c && vu1 r
  | [] => false

/-- Rest of a 3-byte sequence with lead byte `b`. -/
def vu3after (b : Nat) : List Nat → Bool
  | c1 :: r => cont3ok b c1 && vu1 r
  | [] => false

/-- Rest of a 4-byte sequence with lead byte `b`. -/
def vu4after (b : Nat) : List Nat → Bool
  | c1 :: r => cont4ok b c1 && vu2 r
  | [] => false
end

/-- Modelled from the spec: JSON values as held by `serde_json::Value`
(an external dependency of the crate).  Numbers are integers (`i64`/`u64`
contents); strings and object keys are carried as their UTF-8 bytes. -/
inductive Json where
  | null
  | bool (b : Bool)
  | num (n : Int)
  | str (s : List Nat)
  | arr (xs : List Json)
  | obj (ms : List (List Nat × Json))

/-- Lowercase hex digit byte for `d < 16` (serde_json's `0123456789abcdef`). -/
def hexDigit (d : Nat) : Nat := if d < 10 then 48 + d else 87 + d

/-- Modelled from the spec: serde_json's escaping of one string byte.
`"` and `\` get short escapes, as do BS/TAB/LF/FF/CR; other control
bytes become `\u00XX`; everything else is emitted raw. -/
def escByte (b : Nat) : List Nat :=
  if b = 34 then [92, 34]
  else if b = 92 then [92, 92]
  else if b = 8 then [92, 98]
  else if b = 9 then [92, 116]
  else if b = 10 then [92, 110]
  else if b = 12 then [92, 102]
  else if b = 13 then [92, 114]
  else if b < 32 then [92, 117, 48, 48, hexDigit (b / 16), hexDigit (b % 16)]
  else [b]

/-- Escape a whole string body, byte by byte. -/
def serStrBody : List Nat → List Nat
  | [] => []
  | b :: r => escByte b ++ serStrBody r

/-- Decimal digits (ASCII bytes) of a natural number. -/
def serNat (n : Nat) : List Nat :=
  if n = 0 then [48] else ((Nat.digits 10 n).map (· + 48)).reverse

/-- Decimal rendering of an integer (itoa's format: `-` plus digits). -/
def serInt : Int → List Nat
  | .ofNat n => serNat n
  | .negSucc m => 45 :: serNat (m + 1)

mutual
/-- Modelled from the spec: `serde_json::to_vec`, the compact JSON
serialization (no whitespace) of a value, as UTF-8 bytes. -/
def serJson : Json → List Nat
  | .null => [110, 117, 108, 108]
  | .bool true => [116, 114, 117, 101]
  | .bool false => [102, 97, 108, 115, 101]
  | .num i => serInt i
  | .str s => 34 :: (serStrBody s ++ [34])
  | .arr xs => 91 :: (serItems xs ++ [93])
  | .obj ms => 123 :: (serMembers ms ++ [125])

/-- Comma-separated serialization of array items. -/
def serItems : List Json → List Nat
  | [] => []
  | x :: t => serJson x ++ serItemsTail t

/-- Serialization of array items after the first (each with a leading comma). -/
def serItemsTail : List Json → List Nat
  | [] => []
  | x :: t => 44 :: (serJson x ++ serItemsTail t)

/-- Comma-separated serialization of object members. -/
def serMembers : List (List Nat × Json) → List Nat
  | [] => []
  | m :: t => serMember m ++ serMembersTail t

/-- One object member: `"key":value`. -/
def serMember : List Nat × Json → List Nat
  | (k, v) => 34 :: (serStrBody k ++ (34 :: 58 :: serJson v))

/-- Serialization of object members after the first (each with a leading comma). -/
def serMembersTail : List (List Nat × Json) → List Nat
  | [] => []
  | m :: t => 44 :: (serMember m ++ serMembersTail t)
end

mutual
/-- Well-formedness of a `Json` value as a Rust value: every string and
every object key is valid UTF-8 (an invariant of Rust's `String`). -/
def jsonWf : Json → Bool
  | .null => true
  | .bool _ => true
  | .num _ => true
  | .str s => validUtf8 s
  | .arr xs => itemsWf xs
  | .obj ms => membersWf ms

/-- All values in a list are well-formed. -/
def itemsWf : List Json → Bool
  | [] => true
  | x :: t => jsonWf x && itemsWf t

/-- All members have valid-UTF-8 keys and well-formed values. -/
def membersWf : List (List Nat × Json) → Bool
  | [] => true
  | (k, v) :: t => validUtf8 k && jsonWf v && membersWf t
end

/-- `encode_message` of `host.rs` (lines 103-116): serialize to JSON,
reject payloads over `MAX_TO_BROWSER`, else emit the native-endian
length prefix followed by the payload. -/
def encode_message (msg : Json) : Except NmError (List Nat) :=
  let json := serJson msg
  if json.length > MAX_TO_BROWSER then
    .error (.OutgoingTooLarge json.length MAX_TO_BROWSER)
  else
    .ok (u32ToNeBytes json.length ++ json)

/-- `decode_message_opt` of `host.rs` (lines 123-148) on a list-based
stream.  Returns the result together with the unconsumed remainder of
the stream.  A `String` payload is represented by its UTF-8 bytes
(which is the representation Rust's `String` guarantees). -/
def decode_message_opt (input : List Nat) (max_size : Nat) :
    Except NmError (Option (List Nat)) × List Nat :=
  let cap := min max_size MAX_FROM_BROWSER
  match readExact input 4 with
  | none => (.ok none, [])
  | some (len_buf, rest) =>
    let len := u32FromNeBytes len_buf
    if len > cap then (.error (.IncomingTooLarge len cap), rest)
    else
      match readExact rest len with
      | none => (.error (.IoError .unexpectedEof), [])
      | some (buf, rest2) =>
        if validUtf8 buf then (.ok (some buf), rest2)
        else (.error .IncomingNotUtf8, rest2)

/-- `decode_message` of `host.rs` (lines 151-153):
`decode_message_opt(reader, max_size)?.ok_or(NmError::Disconnected)`. -/
def decode_message (input : List Nat) (max_size : Nat) :
    Except NmError (List Nat) × List Nat :=
  let r := decode_message_opt input max_size
  match r.1 with
  | .ok (some s) => (.ok s, r.2)
  | .ok none => (.error .Disconnected, r.2)
  | .error e => (.error e, r.2)

/-- Does `b` encode an ASCII decimal digit? -/
def digitB (b : Nat) : Bool := 48 ≤ b && b ≤ 57

/-- Split a byte list into its leading run of digit bytes and the rest. -/
def parseDigits : List Nat → List Nat × List Nat
  | [] => ([], [])
  | b :: r =>
    if digitB b then (b :: (parseDigits r).1, (parseDigits r).2)
    else ([], b :: r)

/-- Numeric value of a digit-byte list (most significant first). -/
def digitsVal (ds : List Nat) : Nat :=
  ds.foldl (fun a d => a * 10 + (d - 48)) 0

/-- Modelled from the spec: parse an unsigned decimal integer (JSON
grammar: no leading zeros except "0" itself). -/
def parseNatNum (input : List Nat) : Option (Nat × List Nat) :=
  match parseDigits input with
  | ([], _) => none
  | (d :: ds, rest) =>
    if d = 48 ∧ ds ≠ [] then none else some (digitsVal (d :: ds), rest)

/-- Value of a hex digit byte, if it is one. -/
def hexVal (b : Nat) : Option Nat :=
  if 48 ≤ b ∧ b ≤ 57 then some (b - 48)
  else if 97 ≤ b ∧ b ≤ 102 then some (b - 87)
  else if 65 ≤ b ∧ b ≤ 70 then some (b - 55)
  else none

/-- Value of a 4-hex-digit escape, if all four bytes are hex digits. -/
def hex4 (a b c d : Nat) : Option Nat :=
  match hexVal a, hexVal b, hexVal c, hexVal d with
  | some v1, some v2, some v3, some v4 => some (((v1 * 16 + v2) * 16 + v3) * 16 + v4)
  | _, _, _, _ => none

mutual
/-- Modelled from the spec: parse a JSON string body (after the opening
quote) up to and past the closing quote, undoing serde's escapes. -/
def parseStrBody : List Nat → Option (List Nat × List Nat)
  | [] => none
  | b :: rest =>
    if b = 34 then some ([], rest)
    else if b = 92 then parseEsc rest
    else if b < 32 then none
    else (parseStrBody rest).map fun p => (b :: p.1, p.2)

/-- Parse what follows a backslash in a JSON string. -/
def parseEsc : List Nat → Option (List Nat × List Nat)
  | [] => none
  | e :: rest2 =>
    if e = 34 then (parseStrBody rest2).map fun p => (34 :: p.1, p.2)
    else if e = 92 then (parseStrBody rest2).map fun p => (92 :: p.1, p.2)
    else if e = 98 then (parseStrBody rest2).map fun p => (8 :: p.1, p.2)
    else if e = 116 then (parseStrBody rest2).map fun p => (9 :: p.1, p.2)
    else if e = 110 then (parseStrBody rest2).map fun p => (10 :: p.1, p.2)
    else if e = 102 then (parseStrBody rest2).map fun p => (12 :: p.1, p.2)
    else if e = 114 then (parseStrBody rest2).map fun p => (13 :: p.1, p.2)
    else if e = 117 then parseHexEsc rest2
    else none

/-- Parse the four hex digits of a `\uXXXX` escape.  ASCII code points
only (the only ones the compact serializer emits). -/
def parseHexEsc : List Nat → Option (List Nat × List Nat)
  | h1 :: h2 :: h3 :: h4 :: rest3 =>
    match hex4 h1 h2 h3 h4 with
    | some v =>
      if v ≤ 127 then (parseStrBody rest3).map fun p => (v :: p.1, p.2) else none
    | none => none
  | _ => none
end

/-- Check that `pre` is a prefix of the input, returning the rest. -/
def expectBytes : List Nat → List Nat → Option (List Nat)
  | [], input => some input
  | _ :: _, [] => none
  | p :: ps, b :: bs => if b = p then expectBytes ps bs else none

mutual
/-- Modelled from the spec: parse one JSON value (compact grammar, as
emitted by the serializer); fuel bounds the recursion depth. -/
def parseValF : Nat → List Nat → Option (Json × List Nat)
  | 0, _ => none
  | _ + 1, [] => none
  | f + 1, b :: rest =>
    if b = 110 then (expectBytes [117, 108, 108] rest).map fun r => (.null, r)
    else if b = 116 then (expectBytes [114, 117, 101] rest).map fun r => (.bool true, r)
    else if b = 102 then (expectBytes [97, 108, 115, 101] rest).map fun r => (.bool false, r)
    else if b = 34 then (parseStrBody rest).map fun p => (.str p.1, p.2)
    else if b = 91 then (parseItemsF f rest).map fun p => (.arr p.1, p.2)
    else if b = 123 then (parseMembersF f rest).map fun p => (.obj p.1, p.2)
    else if b = 45 then
      match parseNatNum rest with
      | some (n, r) => some (.num (-(n : Int)), r)
      | none => none
    else
      match parseNatNum (b :: rest) with
      | some (n, r) => some (.num (n : Int), r)
      | none => none

/-- Parse the inside of an array, after the opening bracket. -/
def parseItemsF : Nat → List Nat → Option (List Json × List Nat)
  | 0, _ => none
  | _ + 1, [] => none
  | f + 1, b :: rest =>
    if b = 93 then some ([], rest)
    else
      match parseValF f (b :: rest) with
      | none => none
      | some (v, r) =>
        match parseItemsTailF f r with
        | none => none
        | some (vs, r2) => some (v :: vs, r2)

/-- Parse array items after the first: `,` then a value, or `]`. -/
def parseItemsTailF : Nat → List Nat → Option (List Json × List Nat)
  | 0, _ => none
  | _ + 1, [] => none
  | f + 1, b :: rest =>
    if b = 93 then some ([], rest)
    else if b = 44 then
      match parseValF f rest with
      | none => none
      | some (v, r) =>
        match parseItemsTailF f r with
        | none => none
        | some (vs, r2) => some (v :: vs, r2)
    else none

/-- Parse the inside of an object, after the opening brace. -/
def parseMembersF : Nat → List Nat → Option (List (List Nat × Json) × List Nat)
  | 0, _ => none
  | _ + 1, [] => none
  | f + 1, b :: rest =>
    if b = 125 then some ([], rest)
    else if b = 34 then
      match parseStrBody rest with
      | none => none
      | some (k, r1) =>
        match r1 with
        | 58 :: r2 =>
          match parseValF f r2 with
          | none => none
          | some (v, r3) =>
            match parseMembersTailF f r3 with
            | none => none
            | some (ms, r4) => some ((k, v) :: ms, r4)
        | _ => none
    else none

/-- Parse object members after the first: `,` then a member, or `}`. -/
def parseMembersTailF : Nat → List Nat → Option (List (List Nat × Json) × List Nat)
  | 0, _ => none
  | _ + 1, [] => none
  | f + 1, b :: rest =>
    if b = 125 then some ([], rest)
    else if b = 44 then
      match rest with
      | 34 :: r0 =>
        match parseStrBody r0 with
        | none => none
        | some (k, r1) =>
          match r1 with
          | 58 :: r2 =>
            match parseValF f r2 with
            | none => none
            | some (v, r3) =>
              match parseMembersTailF f r3 with
              | none => none
              | some (ms, r4) => some ((k, v) :: ms, r4)
          | _ => none
      | _ => none
    else none
end

/-- Modelled from the spec: `serde_json::from_str` on a message, i.e.
parse a complete JSON document (the whole input must be consumed). -/
def parseJson (s : List Nat) : Option Json :=
  match parseValF (s.length + 1) s with
  | some (v, []) => some v
  | _ => none

/-- `event_loop` of `host.rs` (lines 297-315) on the sequence of items
delivered by the reader queue (`spawn_reader`): dispatch the handler on
each `Ok` message in order, threading the handler's state `σ` (the
embedding of `FnMut` side effects, each invocation awaited to
completion); stop with `Ok(())` on `Disconnected`, propagate any other
queue error, propagate the first handler error, and return `Ok(())` if
the queue closes. -/
def event_loop {σ : Type} (handler : σ → List Nat → σ × Except NmError Unit)
    (s : σ) : List (Except NmError (List Nat)) → σ × Except NmError Unit
  | [] => (s, .ok ())
  | item :: rest =>
    match item with
    | .ok msg =>
      match handler s msg with
      | (s2, .ok _) => event_loop handler s2 rest
      | (s2, .error e) => (s2, .error e)
    | .error .Disconnected => (s, .ok ())
    | .error e => (s, .error e)

/-- The recording handler: its state is the trace of dispatched messages. -/
def recHandler (tr : List (List Nat)) (m : List Nat) :
    List (List Nat) × Except NmError Unit :=
  (tr ++ [m], .ok ())

/-- The byte following a serialized value inside a document is a
separator or closer (`,`, `]`, `}`), never a digit; this is what makes
number parsing stop at the right place. -/
def sepOk (rest : List Nat) : Prop :=
  ∀ b, rest.head? = some b → (b = 44 ∨ b = 93 ∨ b = 125)

/-! ## Basic lemmas about the byte-level helpers -/

theorem u32_to_from (n : Nat) (h : n < 4294967296) :
    u32FromNeBytes (u32ToNeBytes n) = n := by
  simp only [u32ToNeBytes, u32FromNeBytes]
  omega

theorem readExact_append (a b : List Nat) (n : Nat) (h : a.length = n) :
    readExact (a ++ b) n = some (a, b) := by
  subst h
  simp [readExact, List.take_left, List.drop_left]

theorem readExact_too_short (input : List Nat) (n : Nat) (h : input.length < n) :
    readExact input n = none := by
  simp only [readExact, ite_eq_right_iff]
  omega

theorem MAX_FROM_BROWSER_val : MAX_FROM_BROWSER = 67108864 := by
  norm_num [MAX_FROM_BROWSER]

/-! ## Decoder claims -/

/-- C4: an input stream that ends before a full 4-byte length prefix is
available (0, 1, 2 or 3 bytes) makes `decode_message_opt` return the
clean end-of-stream result `Ok(None)`, not an error. -/
theorem decode_truncated_prefix_is_clean_eof (input : List Nat) (max_size : Nat)
    (h : input.length < 4) :
    (decode_message_opt input max_size).1 = .ok none := by
  unfold decode_message_opt
  rw [readExact_too_short input 4 h]

theorem decode_truncated_prefix_is_clean_eof_witness :
    (decode_message_opt [1, 2, 3] 1000).1 = .ok none :=
  decode_truncated_prefix_is_clean_eof [1, 2, 3] 1000 (by decide)

/-- C2: `decode_message_opt` uses the effective cap
`min max_size 67108864`; a declared length above it fails with
`IncomingTooLarge {len, max = effective cap}` before any body byte is
consumed (the entire body is left on the stream). -/
theorem decode_oversize_respects_effective_cap (max_size : Nat) (len_buf body : List Nat)
    (h4 : len_buf.length = 4)
    (hover : min max_size 67108864 < u32FromNeBytes len_buf) :
    decode_message_opt (len_buf ++ body) max_size =
      (.error (.IncomingTooLarge (u32FromNeBytes len_buf) (min max_size 67108864)), body) := by
  unfold decode_message_opt
  rw [readExact_append len_buf body 4 h4, MAX_FROM_BROWSER_val]
  simp only [gt_iff_lt, if_pos hover]

theorem decode_oversize_respects_effective_cap_witness :
    decode_message_opt ([0, 4, 0, 0] ++ [1, 2, 3]) 8 =
      (.error (.IncomingTooLarge (u32FromNeBytes [0, 4, 0, 0]) (min 8 67108864)), [1, 2, 3]) ∧
    decode_message_opt ([1, 0, 0, 4] ++ []) 18446744073709551615 =
      (.error (.IncomingTooLarge (u32FromNeBytes [1, 0, 0, 4])
        (min 18446744073709551615 67108864)), []) :=
  ⟨decode_oversize_respects_effective_cap 8 [0, 4, 0, 0] [1, 2, 3] (by decide) (by decide),
   decode_oversize_respects_effective_cap 18446744073709551615 [1, 0, 0, 4] [] (by decide)
     (by decide)⟩

/-- C5: a fully read length prefix within the effective cap followed by
fewer body bytes than declared is a hard I/O error with
unexpected-end-of-stream semantics (not the clean `Ok(None)`). -/
theorem decode_truncated_body_is_io_error (max_size : Nat) (len_buf body : List Nat)
    (h4 : len_buf.length = 4)
    (hcap : u32FromNeBytes len_buf ≤ min max_size MAX_FROM_BROWSER)
    (hshort : body.length < u32FromNeBytes len_buf) :
    decode_message_opt (len_buf ++ body) max_size =
      (.error (.IoError .unexpectedEof), []) := by
  unfold decode_message_opt
  rw [readExact_append len_buf body 4 h4]
  simp only [gt_iff_lt, if_neg (not_lt.mpr hcap), readExact_too_short body _ hshort]

theorem decode_truncated_body_is_io_error_witness :
    decode_message_opt ([10, 0, 0, 0] ++ [1, 2, 3]) 1000 =
      (.error (.IoError .unexpectedEof), []) :=
  decode_truncated_body_is_io_error 1000 [10, 0, 0, 0] [1, 2, 3] (by decide) (by decide)
    (by decide)

/-- C6: a frame within the cap whose full body is available but not
valid UTF-8 reads the prefix, consumes the entire declared body
(leaving exactly the trailing stream), and only then fails with
`IncomingNotUtf8`. -/
theorem decode_invalid_utf8_consumes_body (max_size : Nat) (len_buf body trail : List Nat)
    (h4 : len_buf.length = 4)
    (hlen : body.length = u32FromNeBytes len_buf)
    (hcap : u32FromNeBytes len_buf ≤ min max_size MAX_FROM_BROWSER)
    (hbad : validUtf8 body = false) :
    decode_message_opt (len_buf ++ (body ++ trail)) max_size =
      (.error .IncomingNotUtf8, trail) := by
  unfold decode_message_opt
  rw [readExact_append len_buf (body ++ trail) 4 h4]
  simp only [gt_iff_lt, if_neg (not_lt.mpr hcap),
    readExact_append body trail _ hlen, hbad]
  simp

theorem decode_invalid_utf8_consumes_body_witness :
    decode_message_opt ([3, 0, 0, 0] ++ ([255, 254, 253] ++ [9, 9])) 1000 =
      (.error .IncomingNotUtf8, [9, 9]) :=
  decode_invalid_utf8_consumes_body 1000 [3, 0, 0, 0] [255, 254, 253] [9, 9] (by decide)
    (by decide) (by decide) (by decide)

/-- C10: a frame declaring length 0 decodes to `Some ""` under every
caller-supplied cap, including `max_size = 0`: the zero-length body is
within every effective cap and trivially valid UTF-8. -/
theorem decode_zero_length_frame (max_size : Nat) (trail : List Nat) :
    decode_message_opt ([0, 0, 0, 0] ++ trail) max_size = (.ok (some []), trail) := by
  unfold decode_message_opt
  rw [readExact_append [0, 0, 0, 0] trail 4 (by decide)]
  have h0 : u32FromNeBytes [0, 0, 0, 0] = 0 := by decide
  simp only [h0, gt_iff_lt, Nat.not_lt_zero, if_false]
  rw [show readExact trail 0 = some ([], trail) by simp [readExact]]
  rfl

/-- C9: `decode_message` returns exactly what `decode_message_opt`
returns, except that the clean end-of-stream result `Ok(None)` becomes
the `Disconnected` error; messages and all other errors pass through
unchanged. -/
theorem decode_message_wraps_opt (input : List Nat) (max_size : Nat) :
    (∀ s, (decode_message_opt input max_size).1 = .ok (some s) →
      decode_message input max_size = (.ok s, (decode_message_opt input max_size).2)) ∧
    ((decode_message_opt input max_size).1 = .ok none →
      decode_message input max_size =
        (.error .Disconnected, (decode_message_opt input max_size).2)) ∧
    (∀ e, (decode_message_opt input max_size).1 = .error e →
      decode_message input max_size = (.error e, (decode_message_opt input max_size).2)) := by
  refine ⟨fun s h => ?_, fun h => ?_, fun e h => ?_⟩ <;>
    · simp only [decode_message]
      rw [h]

theorem decode_message_wraps_opt_witness :
    decode_message [1, 0, 0, 0, 65] 10 = (.ok [65], (decode_message_opt [1, 0, 0, 0, 65] 10).2) ∧
    decode_message [] 10 = (.error .Disconnected, (decode_message_opt [] 10).2) :=
  ⟨(decode_message_wraps_opt [1, 0, 0, 0, 65] 10).1 [65] (by rfl),
   (decode_message_wraps_opt [] 10).2.1 (by rfl)⟩

/-! ## Encoder claims -/

theorem u32ToNeBytes_length (n : Nat) : (u32ToNeBytes n).length = 4 := rfl

/-- C3: `encode_message` fails, and fails with
`OutgoingTooLarge {len, max = MAX_TO_BROWSER}`, exactly when the
serialized JSON length strictly exceeds `MAX_TO_BROWSER` (so exactly
`MAX_TO_BROWSER` bytes are accepted); on that error no frame bytes are
produced, and otherwise the full frame is. -/
theorem encode_oversize_iff (v : Json) :
    (encode_message v = .error (.OutgoingTooLarge (serJson v).length MAX_TO_BROWSER) ↔
      MAX_TO_BROWSER < (serJson v).length) ∧
    ((serJson v).length ≤ MAX_TO_BROWSER →
      encode_message v = .ok (u32ToNeBytes (serJson v).length ++ serJson v)) := by
  simp only [encode_message, gt_iff_lt]
  constructor
  · constructor
    · intro h
      by_contra hc
      push_neg at hc
      rw [if_neg (not_lt.mpr hc)] at h
      exact Except.noConfusion h
    · intro h
      rw [if_pos h]
  · intro h
    rw [if_neg (not_lt.mpr h)]

theorem encode_oversize_iff_witness :
    (serJson .null).length ≤ MAX_TO_BROWSER ∧
    encode_message .null = .ok (u32ToNeBytes (serJson .null).length ++ serJson .null) :=
  ⟨by norm_num [serJson, MAX_TO_BROWSER],
   (encode_oversize_iff .null).2 (by norm_num [serJson, MAX_TO_BROWSER])⟩

/-- C7: every frame accepted by `encode_message` is exactly the 4-byte
native-order length prefix holding the payload length (equivalently,
the total frame length minus 4) immediately followed by the compact
JSON serialization, with no padding or trailing bytes. -/
theorem encode_frame_layout (v : Json) (frame : List Nat)
    (h : encode_message v = .ok frame) :
    frame = u32ToNeBytes (serJson v).length ++ serJson v ∧
    frame.take 4 = u32ToNeBytes (serJson v).length ∧
    u32FromNeBytes (frame.take 4) = frame.length - 4 ∧
    frame.drop 4 = serJson v := by
  have hlen : (serJson v).length ≤ MAX_TO_BROWSER := by
    by_contra hc
    push_neg at hc
    simp only [encode_message, gt_iff_lt] at h
    rw [if_pos hc] at h
    exact Except.noConfusion h
  have hf : frame = u32ToNeBytes (serJson v).length ++ serJson v := by
    simp only [encode_message, gt_iff_lt] at h
    rw [if_neg (not_lt.mpr hlen)] at h
    exact (Except.ok.injEq _ _ ▸ h).symm
  subst hf
  have ht : (u32ToNeBytes (serJson v).length ++ serJson v).take 4 =
      u32ToNeBytes (serJson v).length := by
    rw [show (4 : Nat) = (u32ToNeBytes (serJson v).length).length from rfl]
    exact List.take_left _ _
  have hd : (u32ToNeBytes (serJson v).length ++ serJson v).drop 4 = serJson v := by
    rw [show (4 : Nat) = (u32ToNeBytes (serJson v).length).length from rfl]
    exact List.drop_left _ _
  refine ⟨rfl, ht, ?_, hd⟩
  rw [ht, u32_to_from _ (lt_of_le_of_lt hlen (by norm_num [MAX_TO_BROWSER]))]
  simp [u32ToNeBytes_length]

theorem encode_frame_layout_witness :
    ([4, 0, 0, 0] ++ [110, 117, 108, 108] : List Nat) =
        u32ToNeBytes (serJson .null).length ++ serJson .null ∧
    ([4, 0, 0, 0, 110, 117, 108, 108] : List Nat).take 4 =
        u32ToNeBytes (serJson .null).length ∧
    u32FromNeBytes (([4, 0, 0, 0, 110, 117, 108, 108] : List Nat).take 4) =
        ([4, 0, 0, 0, 110, 117, 108, 108] : List Nat).length - 4 ∧
    ([4, 0, 0, 0, 110, 117, 108, 108] : List Nat).drop 4 = serJson .null := by
  have h := encode_frame_layout .null [4, 0, 0, 0, 110, 117, 108, 108] (by rfl)
  simpa using h

/-! ## Event-loop claim -/

/-- Dispatching a run of `Ok` messages the handler accepts just threads
the handler state through them, in order. -/
theorem event_loop_ok_run {σ : Type} (handler : σ → List Nat → σ × Except NmError Unit)
    (msgs : List (List Nat)) :
    ∀ (s : σ) (rest : List (Except NmError (List Nat))),
      (∀ (t : σ) m, m ∈ msgs → (handler t m).2 = .ok ()) →
      event_loop handler s (msgs.map .ok ++ rest) =
        event_loop handler (msgs.foldl (fun t m => (handler t m).1) s) rest := by
  induction msgs with
  | nil => intro s rest _ ; simp
  | cons m t ih =>
    intro s rest hok
    have hm := hok s m (List.mem_cons_self m t)
    simp only [List.map_cons, List.cons_append, event_loop, List.foldl_cons]
    cases hh : handler s m with
    | mk s2 r =>
      rw [hh] at hm
      simp only at hm
      subst hm
      exact ih s2 rest fun t' m' hm' => hok t' m' (List.mem_cons_of_mem m hm')

/-- C8: the event loop dispatches the handler once per `Ok` message in
exact arrival order (threading the handler's state sequentially);
a `Disconnected` item ends the loop with `Ok(())`, any other error item
ends it with that error, and the first handler invocation returning an
error ends it with the handler's error — with no retry in any case. -/
theorem event_loop_dispatch_spec {σ : Type}
    (handler : σ → List Nat → σ × Except NmError Unit) (s0 : σ) :
    (∀ (msgs : List (List Nat)) (junk : List (Except NmError (List Nat))),
      (∀ (t : σ) m, m ∈ msgs → (handler t m).2 = .ok ()) →
      event_loop handler s0 (msgs.map .ok ++ .error .Disconnected :: junk) =
        (msgs.foldl (fun t m => (handler t m).1) s0, .ok ())) ∧
    (∀ (msgs : List (List Nat)) (e : NmError) (junk : List (Except NmError (List Nat))),
      (∀ (t : σ) m, m ∈ msgs → (handler t m).2 = .ok ()) →
      e ≠ .Disconnected →
      event_loop handler s0 (msgs.map .ok ++ .error e :: junk) =
        (msgs.foldl (fun t m => (handler t m).1) s0, .error e)) ∧
    (∀ (good : List (List Nat)) (m : List Nat) (later : List (List Nat))
      (junk : List (Except NmError (List Nat))) (e : NmError),
      (∀ (t : σ) g, g ∈ good → (handler t g).2 = .ok ()) →
      (∀ t : σ, (handler t m).2 = .error e) →
      event_loop handler s0 ((good ++ m :: later).map .ok ++ junk) =
        ((handler (good.foldl (fun t g => (handler t g).1) s0) m).1, .error e)) := by
  refine ⟨fun msgs junk hok => ?_, fun msgs e junk hok hne => ?_,
    fun good m later junk e hok hbad => ?_⟩
  · rw [event_loop_ok_run handler msgs s0 _ hok]
    rfl
  · rw [event_loop_ok_run handler msgs s0 _ hok]
    cases e <;> simp_all [event_loop]
  · rw [List.map_append, List.append_assoc,
      event_loop_ok_run handler good s0 _ hok]
    have hb := hbad (good.foldl (fun t g => (handler t g).1) s0)
    simp only [List.map_cons, List.cons_append, event_loop]
    cases hh : handler (good.foldl (fun t g => (handler t g).1) s0) m with
    | mk s2 r =>
      rw [hh] at hb
      simp only at hb
      subst hb
      rfl

theorem event_loop_dispatch_spec_witness :
    event_loop recHandler [] ([[65], [66]].map .ok ++ .error .Disconnected :: []) =
      ([[65], [66]].foldl (fun t m => (recHandler t m).1) [], .ok ()) :=
  (event_loop_dispatch_spec recHandler []).1 [[65], [66]] [] (fun _ _ _ => rfl)

/-! ## UTF-8 validity lemmas -/

theorem validUtf8_cons (b : Nat) (rest : List Nat) :
    validUtf8 (b :: rest) =
      (if b ≤ 127 then validUtf8 rest
       else if 194 ≤ b && b ≤ 223 then vu1 rest
       else if 224 ≤ b && b ≤ 239 then vu3after b rest
       else if 240 ≤ b && b ≤ 244 then vu4after b rest
       else false) := rfl

theorem validUtf8_cons1 (b : Nat) (rest : List Nat) (h : b ≤ 127) :
    validUtf8 (b :: rest) = validUtf8 rest := by
  rw [validUtf8_cons, if_pos h]

theorem validUtf8_cons2 (b c : Nat) (r : List Nat) (h1 : ¬ b ≤ 127)
    (h2 : (194 ≤ b && b ≤ 223) = true) :
    validUtf8 (b :: c :: r) = (contB c && validUtf8 r) := by
  rw [validUtf8_cons, if_neg h1, if_pos h2]
  rfl

theorem validUtf8_cons3 (b c1 c2 : Nat) (r : List Nat) (h1 : ¬ b ≤ 127)
    (h2 : ¬ (194 ≤ b && b ≤ 223) = true) (h3 : (224 ≤ b && b ≤ 239) = true) :
    validUtf8 (b :: c1 :: c2 :: r) = (cont3ok b c1 && (contB c2 && validUtf8 r)) := by
  rw [validUtf8_cons, if_neg h1, if_neg h2, if_pos h3]
  rfl

theorem validUtf8_cons4 (b c1 c2 c3 : Nat) (r : List Nat) (h1 : ¬ b ≤ 127)
    (h2 : ¬ (194 ≤ b && b ≤ 223) = true) (h3 : ¬ (224 ≤ b && b ≤ 239) = true)
    (h4 : (240 ≤ b && b ≤ 244) = true) :
    validUtf8 (b :: c1 :: c2 :: c3 :: r) =
      (cont4ok b c1 && (contB c2 && (contB c3 && validUtf8 r))) := by
  rw [validUtf8_cons, if_neg h1, if_neg h2, if_neg h3, if_pos h4]
  rfl

theorem validUtf8_cons_bad (b : Nat) (rest : List Nat) (h1 : ¬ b ≤ 127)
    (h2 : ¬ (194 ≤ b && b ≤ 223) = true) (h3 : ¬ (224 ≤ b && b ≤ 239) = true)
    (h4 : ¬ (240 ≤ b && b ≤ 244) = true) :
    validUtf8 (b :: rest) = false := by
  rw [validUtf8_cons, if_neg h1, if_neg h2, if_neg h3, if_neg h4]

/-- A valid byte sequence is empty or starts with a complete 1-, 2-,
3- or 4-byte scalar encoding followed by a valid sequence. -/
theorem validUtf8_cases (a : List Nat) (h : validUtf8 a = true) :
    a = [] ∨
    (∃ b rest, a = b :: rest ∧ b ≤ 127 ∧ validUtf8 rest = true) ∨
    (∃ b c r, a = b :: c :: r ∧ ¬ b ≤ 127 ∧ (194 ≤ b && b ≤ 223) = true ∧
      contB c = true ∧ validUtf8 r = true) ∨
    (∃ b c1 c2 r, a = b :: c1 :: c2 :: r ∧ ¬ b ≤ 127 ∧
      ¬ (194 ≤ b && b ≤ 223) = true ∧ (224 ≤ b && b ≤ 239) = true ∧
      cont3ok b c1 = true ∧ contB c2 = true ∧ validUtf8 r = true) ∨
    (∃ b c1 c2 c3 r, a = b :: c1 :: c2 :: c3 :: r ∧ ¬ b ≤ 127 ∧
      ¬ (194 ≤ b && b ≤ 223) = true ∧ ¬ (224 ≤ b && b ≤ 239) = true ∧
      (240 ≤ b && b ≤ 244) = true ∧
      cont4ok b c1 = true ∧ contB c2 = true ∧ contB c3 = true ∧
      validUtf8 r = true) := by
  match a with
  | [] => exact Or.inl rfl
  | b :: rest =>
    by_cases h1 : b ≤ 127
    · rw [validUtf8_cons1 b rest h1] at h
      exact Or.inr (Or.inl ⟨b, rest, rfl, h1, h⟩)
    · by_cases h2 : (194 ≤ b && b ≤ 223) = true
      · match rest with
        | [] =>
          rw [show validUtf8 [b] = false by
            rw [validUtf8_cons, if_neg h1, if_pos h2]; rfl] at h
          exact absurd h (by simp)
        | c :: r =>
          rw [validUtf8_cons2 b c r h1 h2, Bool.and_eq_true] at h
          exact Or.inr (Or.inr (Or.inl ⟨b, c, r, rfl, h1, h2, h.1, h.2⟩))
      · by_cases h3 : (224 ≤ b && b ≤ 239) = true
        · match rest with
          | [] =>
            rw [show validUtf8 [b] = false by
              rw [validUtf8_cons, if_neg h1, if_neg h2, if_pos h3]; rfl] at h
            exact absurd h (by simp)
          | [c1] =>
            rw [show validUtf8 [b, c1] = false by
              rw [validUtf8_cons, if_neg h1, if_neg h2, if_pos h3]
              show (cont3ok b c1 && vu1 []) = false
              simp [vu1]] at h
            exact absurd h (by simp)
          | c1 :: c2 :: r =>
            rw [validUtf8_cons3 b c1 c2 r h1 h2 h3, Bool.and_eq_true,
              Bool.and_eq_true] at h
            exact Or.inr (Or.inr (Or.inr (Or.inl
              ⟨b, c1, c2, r, rfl, h1, h2, h3, h.1, h.2.1, h.2.2⟩)))
        · by_cases h4 : (240 ≤ b && b ≤ 244) = true
          · match rest with
            | [] =>
              rw [show validUtf8 [b] = false by
                rw [validUtf8_cons, if_neg h1, if_neg h2, if_neg h3, if_pos h4]; rfl] at h
              exact absurd h (by simp)
            | [c1] =>
              rw [show validUtf8 [b, c1] = false by
                rw [validUtf8_cons, if_neg h1, if_neg h2, if_neg h3, if_pos h4]
                show (cont4ok b c1 && vu2 []) = false
                simp [vu2]] at h
              exact absurd h (by simp)
            | [c1, c2] =>
              rw [show validUtf8 [b, c1, c2] = false by
                rw [validUtf8_cons, if_neg h1, if_neg h2, if_neg h3, if_pos h4]
                show (cont4ok b c1 && vu2 [c2]) = false
                show (cont4ok b c1 && (contB c2 && vu1 [])) = false
                simp [vu1]] at h
              exact absurd h (by simp)
            | c1 :: c2 :: c3 :: r =>
              rw [validUtf8_cons4 b c1 c2 c3 r h1 h2 h3 h4, Bool.and_eq_true,
                Bool.and_eq_true, Bool.and_eq_true] at h
              exact Or.inr (Or.inr (Or.inr (Or.inr
                ⟨b, c1, c2, c3, r, rfl, h1, h2, h3, h4,
                  h.1, h.2.1, h.2.2.1, h.2.2.2⟩)))
          · rw [validUtf8_cons_bad b rest h1 h2 h3 h4] at h
            exact absurd h (by simp)

/-- Valid UTF-8 sequences concatenate to valid UTF-8 sequences
(auxiliary form with an explicit length bound for the induction). -/
theorem validUtf8_append_aux : ∀ (n : Nat) (a c : List Nat), a.length ≤ n →
    validUtf8 a = true → validUtf8 c = true → validUtf8 (a ++ c) = true := by
  intro n
  induction n with
  | zero =>
    intro a c hn ha hc
    have : a = [] := List.eq_nil_of_length_eq_zero (Nat.le_zero.mp hn)
    subst this
    simpa using hc
  | succ n ih =>
    intro a c hn ha hc
    rcases validUtf8_cases a ha with rfl |
      ⟨b, rest, rfl, hb, hr⟩ |
      ⟨b, c1, r, rfl, h1, h2, hc1, hr⟩ |
      ⟨b, c1, c2, r, rfl, h1, h2, h3, hc1, hc2, hr⟩ |
      ⟨b, c1, c2, c3, r, rfl, h1, h2, h3, h4, hc1, hc2, hc3, hr⟩
    · simpa using hc
    · rw [List.cons_append, validUtf8_cons1 b _ hb]
      exact ih rest c (by simp at hn; omega) hr hc
    · rw [List.cons_append, List.cons_append, validUtf8_cons2 b c1 _ h1 h2, hc1,
        ih r c (by simp at hn; omega) hr hc, Bool.and_self]
    · rw [List.cons_append, List.cons_append, List.cons_append,
        validUtf8_cons3 b c1 c2 _ h1 h2 h3, hc1, hc2,
        ih r c (by simp at hn; omega) hr hc, Bool.and_self, Bool.and_self]
    · rw [List.cons_append, List.cons_append, List.cons_append, List.cons_append,
        validUtf8_cons4 b c1 c2 c3 _ h1 h2 h3 h4, hc1, hc2, hc3,
        ih r c (by simp at hn; omega) hr hc, Bool.and_self, Bool.and_self,
        Bool.and_self]

/-- Valid UTF-8 sequences concatenate to valid UTF-8 sequences. -/
theorem validUtf8_append (a c : List Nat) (ha : validUtf8 a = true)
    (hc : validUtf8 c = true) : validUtf8 (a ++ c) = true :=
  validUtf8_append_aux a.length a c le_rfl ha hc

/-- An all-ASCII chunk prepends to any valid sequence. -/
theorem validUtf8_ascii_append : ∀ (l c : List Nat), (∀ x ∈ l, x ≤ 127) →
    validUtf8 c = true → validUtf8 (l ++ c) = true
  | [], _, _, hc => by simpa
  | x :: r, c, hl, hc => by
    rw [List.cons_append, validUtf8_cons1 x _ (hl x (List.mem_cons_self x r))]
    exact validUtf8_ascii_append r c (fun y hy => hl y (List.mem_cons_of_mem x hy)) hc

/-! ## Validity of the compact serialization -/

theorem contB_ge (c : Nat) (h : contB c = true) : 128 ≤ c := by
  simp [contB] at h
  omega

theorem cont3ok_ge (b c : Nat) (h : cont3ok b c = true) : 128 ≤ c := by
  unfold cont3ok at h
  split_ifs at h <;> simp [contB] at h <;> omega

theorem cont4ok_ge (b c : Nat) (h : cont4ok b c = true) : 128 ≤ c := by
  unfold cont4ok at h
  split_ifs at h <;> simp [contB] at h <;> omega

theorem hexDigit_ascii (d : Nat) (h : d < 16) : hexDigit d ≤ 127 := by
  unfold hexDigit
  split <;> omega

theorem escByte_ascii (b : Nat) (hb : b ≤ 127) : ∀ x ∈ escByte b, x ≤ 127 := by
  intro x hx
  unfold escByte at hx
  split_ifs at hx
  · simp at hx; rcases hx with rfl | rfl <;> omega
  · simp at hx; rcases hx with rfl | rfl <;> omega
  · simp at hx; rcases hx with rfl | rfl <;> omega
  · simp at hx; rcases hx with rfl | rfl <;> omega
  · simp at hx; rcases hx with rfl | rfl <;> omega
  · simp at hx; rcases hx with rfl | rfl <;> omega
  · simp at hx; rcases hx with rfl | rfl <;> omega
  · have hd1 := hexDigit_ascii (b / 16) (by omega)
    have hd2 := hexDigit_ascii (b % 16) (by omega)
    simp at hx
    rcases hx with rfl | rfl | rfl | rfl | rfl
    all_goals omega
  · simp at hx; omega

theorem escByte_high (b : Nat) (h : 128 ≤ b) : escByte b = [b] := by
  unfold escByte
  split_ifs <;> first | omega | rfl

theorem serNat_ascii (n : Nat) : ∀ x ∈ serNat n, x ≤ 127 := by
  intro x hx
  unfold serNat at hx
  split_ifs at hx with h
  · simp at hx; omega
  · rw [List.mem_reverse] at hx
    simp only [List.mem_map] at hx
    obtain ⟨d, hd, rfl⟩ := hx
    have := Nat.digits_lt_base (by norm_num) hd
    omega

theorem serInt_ascii (i : Int) : ∀ x ∈ serInt i, x ≤ 127 := by
  intro x hx
  match i with
  | .ofNat n => exact serNat_ascii n x hx
  | .negSucc m =>
    rcases List.mem_cons.mp hx with rfl | hx'
    · omega
    · exact serNat_ascii (m + 1) x hx'

/-- Escaping a valid UTF-8 string body and appending a valid tail keeps
the bytes valid UTF-8 (auxiliary form with a length bound). -/
theorem serStrBody_valid_aux : ∀ (n : Nat) (s c : List Nat), s.length ≤ n →
    validUtf8 s = true → validUtf8 c = true →
    validUtf8 (serStrBody s ++ c) = true := by
  intro n
  induction n with
  | zero =>
    intro s c hn hs hc
    have : s = [] := List.eq_nil_of_length_eq_zero (Nat.le_zero.mp hn)
    subst this
    simpa using hc
  | succ n ih =>
    intro s c hn hs hc
    rcases validUtf8_cases s hs with rfl |
      ⟨b, rest, rfl, hb, hr⟩ |
      ⟨b, c1, r, rfl, h1, h2, hc1, hr⟩ |
      ⟨b, c1, c2, r, rfl, h1, h2, h3, hc1, hc2, hr⟩ |
      ⟨b, c1, c2, c3, r, rfl, h1, h2, h3, h4, hc1, hc2, hc3, hr⟩
    · simpa using hc
    · show validUtf8 ((escByte b ++ serStrBody rest) ++ c) = true
      rw [List.append_assoc]
      exact validUtf8_ascii_append _ _ (escByte_ascii b hb)
        (ih rest c (by simp at hn; omega) hr hc)
    · show validUtf8 ((escByte b ++ (escByte c1 ++ serStrBody r)) ++ c) = true
      rw [escByte_high b (by omega), escByte_high c1 (contB_ge c1 hc1)]
      simp only [List.singleton_append, List.cons_append, List.nil_append, List.append_assoc]
      rw [validUtf8_cons2 b c1 _ h1 h2, hc1, ih r c (by simp at hn; omega) hr hc]
      rfl
    · show validUtf8
        ((escByte b ++ (escByte c1 ++ (escByte c2 ++ serStrBody r))) ++ c) = true
      rw [escByte_high b (by omega), escByte_high c1 (cont3ok_ge b c1 hc1),
        escByte_high c2 (contB_ge c2 hc2)]
      simp only [List.singleton_append, List.cons_append, List.nil_append, List.append_assoc]
      rw [validUtf8_cons3 b c1 c2 _ h1 h2 h3, hc1, hc2,
        ih r c (by simp at hn; omega) hr hc]
      rfl
    · show validUtf8
        ((escByte b ++ (escByte c1 ++ (escByte c2 ++ (escByte c3 ++ serStrBody r)))) ++ c) =
          true
      rw [escByte_high b (by omega), escByte_high c1 (cont4ok_ge b c1 hc1),
        escByte_high c2 (contB_ge c2 hc2), escByte_high c3 (contB_ge c3 hc3)]
      simp only [List.singleton_append, List.cons_append, List.nil_append, List.append_assoc]
      rw [validUtf8_cons4 b c1 c2 c3 _ h1 h2 h3 h4, hc1, hc2, hc3,
        ih r c (by simp at hn; omega) hr hc]
      rfl

/-- Escaping a valid UTF-8 string body and appending a valid tail keeps
the bytes valid UTF-8. -/
theorem serStrBody_valid_append (s c : List Nat) (hs : validUtf8 s = true)
    (hc : validUtf8 c = true) : validUtf8 (serStrBody s ++ c) = true :=
  serStrBody_valid_aux s.length s c le_rfl hs hc

theorem itemsWf_cons (x : Json) (t : List Json) :
    itemsWf (x :: t) = (jsonWf x && itemsWf t) := rfl

theorem membersWf_cons (k : List Nat) (v : Json) (t : List (List Nat × Json)) :
    membersWf ((k, v) :: t) = ((validUtf8 k && jsonWf v) && membersWf t) := rfl

mutual
/-- Serializing a well-formed value and appending a valid tail yields
valid UTF-8. -/
theorem serJson_valid_append : ∀ (v : Json) (c : List Nat), jsonWf v = true →
    validUtf8 c = true → validUtf8 (serJson v ++ c) = true
  | .null, c, _, hc => validUtf8_ascii_append _ c (by decide) hc
  | .bool true, c, _, hc => validUtf8_ascii_append _ c (by decide) hc
  | .bool false, c, _, hc => validUtf8_ascii_append _ c (by decide) hc
  | .num i, c, _, hc => validUtf8_ascii_append _ c (serInt_ascii i) hc
  | .str s, c, hwf, hc => by
    have hs : validUtf8 s = true := hwf
    show validUtf8 ((34 :: (serStrBody s ++ [34])) ++ c) = true
    rw [List.cons_append, validUtf8_cons1 34 _ (by omega), List.append_assoc]
    exact serStrBody_valid_append s ([34] ++ c) hs
      (validUtf8_ascii_append [34] c (by decide) hc)
  | .arr xs, c, hwf, hc => by
    show validUtf8 ((91 :: (serItems xs ++ [93])) ++ c) = true
    rw [List.cons_append, validUtf8_cons1 91 _ (by omega), List.append_assoc]
    exact serItems_valid_append xs ([93] ++ c) hwf
      (validUtf8_ascii_append [93] c (by decide) hc)
  | .obj ms, c, hwf, hc => by
    show validUtf8 ((123 :: (serMembers ms ++ [125])) ++ c) = true
    rw [List.cons_append, validUtf8_cons1 123 _ (by omega), List.append_assoc]
    exact serMembers_valid_append ms ([125] ++ c) hwf
      (validUtf8_ascii_append [125] c (by decide) hc)

/-- Serializing well-formed array items keeps the bytes valid UTF-8. -/
theorem serItems_valid_append : ∀ (xs : List Json) (c : List Nat),
    itemsWf xs = true → validUtf8 c = true →
    validUtf8 (serItems xs ++ c) = true
  | [], c, _, hc => by simpa using hc
  | x :: t, c, hwf, hc => by
    rw [itemsWf_cons, Bool.and_eq_true] at hwf
    obtain ⟨h1, h2⟩ := hwf
    show validUtf8 ((serJson x ++ serItemsTail t) ++ c) = true
    rw [List.append_assoc]
    exact serJson_valid_append x _ h1 (serItemsTail_valid_append t c h2 hc)

/-- Serializing the tail of an array keeps the bytes valid UTF-8. -/
theorem serItemsTail_valid_append : ∀ (t : List Json) (c : List Nat),
    itemsWf t = true → validUtf8 c = true →
    validUtf8 (serItemsTail t ++ c) = true
  | [], c, _, hc => by simpa using hc
  | x :: t, c, hwf, hc => by
    rw [itemsWf_cons, Bool.and_eq_true] at hwf
    obtain ⟨h1, h2⟩ := hwf
    show validUtf8 ((44 :: (serJson x ++ serItemsTail t)) ++ c) = true
    rw [List.cons_append, validUtf8_cons1 44 _ (by omega), List.append_assoc]
    exact serJson_valid_append x _ h1 (serItemsTail_valid_append t c h2 hc)

/-- Serializing well-formed object members keeps the bytes valid UTF-8. -/
theorem serMembers_valid_append : ∀ (ms : List (List Nat × Json)) (c : List Nat),
    membersWf ms = true → validUtf8 c = true →
    validUtf8 (serMembers ms ++ c) = true
  | [], c, _, hc => by simpa using hc
  | (k, v) :: t, c, hwf, hc => by
    rw [membersWf_cons, Bool.and_eq_true] at hwf
    obtain ⟨hkv, h2⟩ := hwf
    show validUtf8 ((serMember (k, v) ++ serMembersTail t) ++ c) = true
    rw [List.append_assoc]
    exact serMember_valid_append (k, v) _ hkv (serMembersTail_valid_append t c h2 hc)

/-- Serializing one well-formed object member keeps the bytes valid UTF-8. -/
theorem serMember_valid_append : ∀ (m : List Nat × Json) (c : List Nat),
    (validUtf8 m.1 && jsonWf m.2) = true → validUtf8 c = true →
    validUtf8 (serMember m ++ c) = true
  | (k, v), c, hwf, hc => by
    rw [Bool.and_eq_true] at hwf
    obtain ⟨hk, hv⟩ := hwf
    show validUtf8 ((34 :: (serStrBody k ++ (34 :: 58 :: serJson v))) ++ c) = true
    rw [List.cons_append, validUtf8_cons1 34 _ (by omega), List.append_assoc]
    refine serStrBody_valid_append k _ hk ?_
    rw [List.cons_append, validUtf8_cons1 34 _ (by omega), List.cons_append,
      validUtf8_cons1 58 _ (by omega)]
    exact serJson_valid_append v c hv hc

/-- Serializing the tail of an object keeps the bytes valid UTF-8. -/
theorem serMembersTail_valid_append : ∀ (t : List (List Nat × Json)) (c : List Nat),
    membersWf t = true → validUtf8 c = true →
    validUtf8 (serMembersTail t ++ c) = true
  | [], c, _, hc => by simpa using hc
  | (k, v) :: t, c, hwf, hc => by
    rw [membersWf_cons, Bool.and_eq_true] at hwf
    obtain ⟨hkv, h2⟩ := hwf
    show validUtf8 ((44 :: (serMember (k, v) ++ serMembersTail t)) ++ c) = true
    rw [List.cons_append, validUtf8_cons1 44 _ (by omega), List.append_assoc]
    exact serMember_valid_append (k, v) _ hkv (serMembersTail_valid_append t c h2 hc)
end

/-- The compact serialization of a well-formed value is valid UTF-8. -/
theorem serJson_valid (v : Json) (h : jsonWf v = true) :
    validUtf8 (serJson v) = true := by
  have := serJson_valid_append v [] h rfl
  simpa using this

/-! ## Decimal number round-trip -/

theorem serNat_digitB (n : Nat) : ∀ x ∈ serNat n, digitB x = true := by
  intro x hx
  unfold serNat at hx
  split_ifs at hx with h
  · simp at hx
    subst hx
    decide
  · rw [List.mem_reverse] at hx
    simp only [List.mem_map] at hx
    obtain ⟨d, hd, rfl⟩ := hx
    have := Nat.digits_lt_base (by norm_num) hd
    simp only [digitB, Bool.and_eq_true, decide_eq_true_eq]
    omega

theorem parseDigits_append (ds rest : List Nat) (hds : ∀ x ∈ ds, digitB x = true)
    (hrest : ∀ b, rest.head? = some b → digitB b = false) :
    parseDigits (ds ++ rest) = (ds, rest) := by
  induction ds with
  | nil =>
    simp only [List.nil_append]
    match rest with
    | [] => rfl
    | b :: r =>
      have hb := hrest b rfl
      unfold parseDigits
      rw [if_neg (by simp [hb])]
  | cons d t ih =>
    have hd := hds d (List.mem_cons_self d t)
    simp only [List.cons_append]
    unfold parseDigits
    rw [if_pos hd, ih (fun x hx => hds x (List.mem_cons_of_mem d hx))]

theorem digitsVal_aux (L : List Nat) : ∀ (a : Nat),
    ((L.map (· + 48)).reverse).foldl (fun x d => x * 10 + (d - 48)) a =
      a * 10 ^ L.length + Nat.ofDigits 10 L := by
  induction L with
  | nil =>
    intro a
    simp [Nat.ofDigits]
  | cons d t ih =>
    intro a
    simp only [List.map_cons, List.reverse_cons, List.foldl_append, List.foldl_cons,
      List.foldl_nil]
    rw [ih a]
    simp only [Nat.ofDigits_cons, List.length_cons, pow_succ, Nat.add_sub_cancel]
    ring

theorem digitsVal_serNat (n : Nat) : digitsVal (serNat n) = n := by
  unfold serNat digitsVal
  split_ifs with h
  · subst h
    rfl
  · rw [digitsVal_aux]
    simp [Nat.ofDigits_digits]

theorem serNat_shape (n : Nat) : ∃ d ds, serNat n = d :: ds ∧ digitB d = true ∧
    (d = 48 → ds = []) := by
  by_cases h : n = 0
  · subst h
    exact ⟨48, [], rfl, by decide, fun _ => rfl⟩
  · have hL : Nat.digits 10 n ≠ [] := Nat.digits_ne_nil_iff_ne_zero.mpr h
    rcases List.eq_nil_or_concat' (Nat.digits 10 n) with heq | ⟨L, g, heq⟩
    · exact absurd heq hL
    · have hg : g ≠ 0 := by
        have hgl := Nat.getLast_digit_ne_zero 10 h
        have h1 : (Nat.digits 10 n).getLast? = some g := by
          rw [heq]
          exact List.getLast?_concat _
        have h2 : (Nat.digits 10 n).getLast? =
            some ((Nat.digits 10 n).getLast (Nat.digits_ne_nil_iff_ne_zero.mpr h)) :=
          List.getLast?_eq_getLast _ _
        have h3 := Option.some.inj (h1.symm.trans h2)
        intro hg0
        exact hgl (by omega)
      have hglt : g < 10 := by
        have hmem : g ∈ Nat.digits 10 n := by
          rw [heq]
          exact List.mem_append_right L (List.mem_singleton.mpr rfl)
        exact Nat.digits_lt_base (by norm_num) hmem
      refine ⟨g + 48, (L.map (· + 48)).reverse, ?_, ?_, ?_⟩
      · unfold serNat
        rw [if_neg h, heq, List.map_append, List.map_singleton, List.reverse_concat']
      · simp only [digitB, Bool.and_eq_true, decide_eq_true_eq]
        omega
      · intro h48
        omega

theorem sepOk_not_digit (rest : List Nat) (h : sepOk rest) :
    ∀ b, rest.head? = some b → digitB b = false := by
  intro b hb
  rcases h b hb with rfl | rfl | rfl <;> decide

theorem parseNatNum_ser (n : Nat) (rest : List Nat)
    (hrest : ∀ b, rest.head? = some b → digitB b = false) :
    parseNatNum (serNat n ++ rest) = some (n, rest) := by
  obtain ⟨d, ds, hser, hd, hzero⟩ := serNat_shape n
  unfold parseNatNum
  rw [parseDigits_append (serNat n) rest (serNat_digitB n) hrest, hser]
  have hne : ¬(d = 48 ∧ ds ≠ []) := fun hx => hx.2 (hzero hx.1)
  simp only [if_neg hne]
  rw [← hser, digitsVal_serNat]

/-! ## String-body round-trip -/

theorem parseStrBody_cons (b : Nat) (rest : List Nat) :
    parseStrBody (b :: rest) =
      (if b = 34 then some ([], rest)
       else if b = 92 then parseEsc rest
       else if b < 32 then none
       else (parseStrBody rest).map fun p => (b :: p.1, p.2)) := rfl

theorem hexVal_hexDigit (d : Nat) (h : d < 16) : hexVal (hexDigit d) = some d := by
  unfold hexVal hexDigit
  split_ifs <;> first | (simp only [Option.some.injEq]; omega) | omega

theorem hex4_escape (b : Nat) (hb : b < 32) :
    hex4 48 48 (hexDigit (b / 16)) (hexDigit (b % 16)) = some b := by
  unfold hex4
  rw [show hexVal 48 = some 0 from rfl, hexVal_hexDigit (b / 16) (by omega),
    hexVal_hexDigit (b % 16) (by omega)]
  simp only [Option.some.injEq]
  omega

theorem parseStrBody_ser : ∀ (s rest : List Nat),
    parseStrBody (serStrBody s ++ (34 :: rest)) = some (s, rest)
  | [], rest => rfl
  | b :: t, rest => by
    have ih := parseStrBody_ser t rest
    show parseStrBody ((escByte b ++ serStrBody t) ++ (34 :: rest)) = some (b :: t, rest)
    rw [List.append_assoc]
    by_cases h34 : b = 34
    · subst h34
      show (parseStrBody (serStrBody t ++ (34 :: rest))).map
          (fun p => (34 :: p.1, p.2)) = some (34 :: t, rest)
      rw [ih]
      rfl
    by_cases h92 : b = 92
    · subst h92
      show (parseStrBody (serStrBody t ++ (34 :: rest))).map
          (fun p => (92 :: p.1, p.2)) = some (92 :: t, rest)
      rw [ih]
      rfl
    by_cases h8 : b = 8
    · subst h8
      show (parseStrBody (serStrBody t ++ (34 :: rest))).map
          (fun p => (8 :: p.1, p.2)) = some (8 :: t, rest)
      rw [ih]
      rfl
    by_cases h9 : b = 9
    · subst h9
      show (parseStrBody (serStrBody t ++ (34 :: rest))).map
          (fun p => (9 :: p.1, p.2)) = some (9 :: t, rest)
      rw [ih]
      rfl
    by_cases h10 : b = 10
    · subst h10
      show (parseStrBody (serStrBody t ++ (34 :: rest))).map
          (fun p => (10 :: p.1, p.2)) = some (10 :: t, rest)
      rw [ih]
      rfl
    by_cases h12 : b = 12
    · subst h12
      show (parseStrBody (serStrBody t ++ (34 :: rest))).map
          (fun p => (12 :: p.1, p.2)) = some (12 :: t, rest)
      rw [ih]
      rfl
    by_cases h13 : b = 13
    · subst h13
      show (parseStrBody (serStrBody t ++ (34 :: rest))).map
          (fun p => (13 :: p.1, p.2)) = some (13 :: t, rest)
      rw [ih]
      rfl
    by_cases h32 : b < 32
    · have hesc : escByte b =
          [92, 117, 48, 48, hexDigit (b / 16), hexDigit (b % 16)] := by
        unfold escByte
        rw [if_neg h34, if_neg h92, if_neg h8, if_neg h9, if_neg h10, if_neg h12,
          if_neg h13, if_pos h32]
      rw [hesc]
      show (match hex4 48 48 (hexDigit (b / 16)) (hexDigit (b % 16)) with
            | some v =>
              if v ≤ 127 then
                (parseStrBody (serStrBody t ++ (34 :: rest))).map
                  fun p => (v :: p.1, p.2)
              else none
            | none => none) = some (b :: t, rest)
      rw [hex4_escape b h32]
      show (if b ≤ 127 then
              (parseStrBody (serStrBody t ++ (34 :: rest))).map
                fun p => (b :: p.1, p.2)
            else none) = some (b :: t, rest)
      rw [if_pos (show b ≤ 127 by omega), ih]
      rfl
    · have hesc : escByte b = [b] := by
        unfold escByte
        rw [if_neg h34, if_neg h92, if_neg h8, if_neg h9, if_neg h10, if_neg h12,
          if_neg h13, if_neg h32]
      rw [hesc]
      show parseStrBody (b :: (serStrBody t ++ (34 :: rest))) = some (b :: t, rest)
      rw [parseStrBody_cons, if_neg h34, if_neg h92, if_neg h32, ih]
      rfl

/-! ## Parser unfold equations and heads of serializations -/

theorem parseValF_cons (f : Nat) (b : Nat) (rest : List Nat) :
    parseValF (f + 1) (b :: rest) =
      (if b = 110 then (expectBytes [117, 108, 108] rest).map fun r => (.null, r)
       else if b = 116 then
         (expectBytes [114, 117, 101] rest).map fun r => (.bool true, r)
       else if b = 102 then
         (expectBytes [97, 108, 115, 101] rest).map fun r => (.bool false, r)
       else if b = 34 then (parseStrBody rest).map fun p => (.str p.1, p.2)
       else if b = 91 then (parseItemsF f rest).map fun p => (.arr p.1, p.2)
       else if b = 123 then (parseMembersF f rest).map fun p => (.obj p.1, p.2)
       else if b = 45 then
         match parseNatNum rest with
         | some (n, r) => some (.num (-(n : Int)), r)
         | none => none
       else
         match parseNatNum (b :: rest) with
         | some (n, r) => some (.num (n : Int), r)
         | none => none) := rfl

theorem parseItemsF_cons (f : Nat) (b : Nat) (rest : List Nat) :
    parseItemsF (f + 1) (b :: rest) =
      (if b = 93 then some ([], rest)
       else
         match parseValF f (b :: rest) with
         | none => none
         | some (v, r) =>
           match parseItemsTailF f r with
           | none => none
           | some (vs, r2) => some (v :: vs, r2)) := rfl

theorem parseItemsTailF_cons (f : Nat) (b : Nat) (rest : List Nat) :
    parseItemsTailF (f + 1) (b :: rest) =
      (if b = 93 then some ([], rest)
       else if b = 44 then
         match parseValF f rest with
         | none => none
         | some (v, r) =>
           match parseItemsTailF f r with
           | none => none
           | some (vs, r2) => some (v :: vs, r2)
       else none) := rfl

theorem parseMembersF_cons (f : Nat) (b : Nat) (rest : List Nat) :
    parseMembersF (f + 1) (b :: rest) =
      (if b = 125 then some ([], rest)
       else if b = 34 then
         match parseStrBody rest with
         | none => none
         | some (k, r1) =>
           match r1 with
           | 58 :: r2 =>
             match parseValF f r2 with
             | none => none
             | some (v, r3) =>
               match parseMembersTailF f r3 with
               | none => none
               | some (ms, r4) => some ((k, v) :: ms, r4)
           | _ => none
       else none) := rfl

theorem parseMembersTailF_cons (f : Nat) (b : Nat) (rest : List Nat) :
    parseMembersTailF (f + 1) (b :: rest) =
      (if b = 125 then some ([], rest)
       else if b = 44 then
         match rest with
         | 34 :: r0 =>
           match parseStrBody r0 with
           | none => none
           | some (k, r1) =>
             match r1 with
             | 58 :: r2 =>
               match parseValF f r2 with
               | none => none
               | some (v, r3) =>
                 match parseMembersTailF f r3 with
                 | none => none
                 | some (ms, r4) => some ((k, v) :: ms, r4)
             | _ => none
         | _ => none
       else none) := rfl

theorem serItems_cons (x : Json) (t : List Json) :
    serItems (x :: t) = serJson x ++ serItemsTail t := rfl

theorem serItemsTail_cons (x : Json) (t : List Json) :
    serItemsTail (x :: t) = 44 :: (serJson x ++ serItemsTail t) := rfl

theorem serMembers_cons (m : List Nat × Json) (t : List (List Nat × Json)) :
    serMembers (m :: t) = serMember m ++ serMembersTail t := rfl

theorem serMember_def (k : List Nat) (v : Json) :
    serMember (k, v) = 34 :: (serStrBody k ++ (34 :: 58 :: serJson v)) := rfl

theorem serMembersTail_cons (m : List Nat × Json) (t : List (List Nat × Json)) :
    serMembersTail (m :: t) = 44 :: (serMember m ++ serMembersTail t) := rfl

theorem digitB_bounds (b : Nat) (h : digitB b = true) : 48 ≤ b ∧ b ≤ 57 := by
  simp only [digitB, Bool.and_eq_true, decide_eq_true_eq] at h
  exact h

/-- Every serialized value starts with a byte that is not a separator
or closer (`,`, `]`, `}`); used to drive the item/member parsers. -/
theorem serJson_head_sep (v : Json) : ∃ b tl, serJson v = b :: tl ∧
    b ≠ 93 ∧ b ≠ 125 ∧ b ≠ 44 := by
  match v with
  | .null => exact ⟨110, _, rfl, by omega, by omega, by omega⟩
  | .bool true => exact ⟨116, _, rfl, by omega, by omega, by omega⟩
  | .bool false => exact ⟨102, _, rfl, by omega, by omega, by omega⟩
  | .str s => exact ⟨34, _, rfl, by omega, by omega, by omega⟩
  | .arr xs => exact ⟨91, _, rfl, by omega, by omega, by omega⟩
  | .obj ms => exact ⟨123, _, rfl, by omega, by omega, by omega⟩
  | .num (.ofNat n) =>
    obtain ⟨d, ds, hser, hd, _⟩ := serNat_shape n
    obtain ⟨hd1, hd2⟩ := digitB_bounds d hd
    exact ⟨d, ds, hser, by omega, by omega, by omega⟩
  | .num (.negSucc m) => exact ⟨45, _, rfl, by omega, by omega, by omega⟩

theorem sepOk_tail_items (t : List Json) (rest : List Nat) :
    sepOk (serItemsTail t ++ 93 :: rest) := by
  match t with
  | [] =>
    intro b hb
    simp only [serItemsTail, List.nil_append, List.head?_cons, Option.some.injEq] at hb
    omega
  | x :: t2 =>
    intro b hb
    rw [serItemsTail_cons, List.cons_append] at hb
    simp only [List.head?_cons, Option.some.injEq] at hb
    omega

theorem sepOk_tail_members (t : List (List Nat × Json)) (rest : List Nat) :
    sepOk (serMembersTail t ++ 125 :: rest) := by
  match t with
  | [] =>
    intro b hb
    simp only [serMembersTail, List.nil_append, List.head?_cons, Option.some.injEq] at hb
    omega
  | m :: t2 =>
    intro b hb
    rw [serMembersTail_cons, List.cons_append] at hb
    simp only [List.head?_cons, Option.some.injEq] at hb
    omega

theorem cons2_append (a b : Nat) (l r : List Nat) :
    (a :: b :: l) ++ r = a :: (b :: (l ++ r)) := rfl

/-! ## The parser–serializer round trip (fuel induction) -/

theorem parse_ser_mutual : ∀ f : Nat,
    (∀ (v : Json) (rest : List Nat), sepOk rest → (serJson v).length < f →
      parseValF f (serJson v ++ rest) = some (v, rest)) ∧
    (∀ (xs : List Json) (rest : List Nat), (serItems xs).length + 1 < f →
      parseItemsF f (serItems xs ++ 93 :: rest) = some (xs, rest)) ∧
    (∀ (t : List Json) (rest : List Nat), (serItemsTail t).length < f →
      parseItemsTailF f (serItemsTail t ++ 93 :: rest) = some (t, rest)) ∧
    (∀ (ms : List (List Nat × Json)) (rest : List Nat),
      (serMembers ms).length + 1 < f →
      parseMembersF f (serMembers ms ++ 125 :: rest) = some (ms, rest)) ∧
    (∀ (t : List (List Nat × Json)) (rest : List Nat),
      (serMembersTail t).length < f →
      parseMembersTailF f (serMembersTail t ++ 125 :: rest) = some (t, rest)) := by
  intro f
  induction f with
  | zero =>
    exact ⟨fun v rest _ hf => absurd hf (Nat.not_lt_zero _),
      fun xs rest hf => absurd hf (Nat.not_lt_zero _),
      fun t rest hf => absurd hf (Nat.not_lt_zero _),
      fun ms rest hf => absurd hf (Nat.not_lt_zero _),
      fun t rest hf => absurd hf (Nat.not_lt_zero _)⟩
  | succ f ih =>
    obtain ⟨ihV, ihI, ihIT, ihM, ihMT⟩ := ih
    refine ⟨?_, ?_, ?_, ?_, ?_⟩
    · intro v rest hsep hf
      match v with
      | .null => exact rfl
      | .bool true => exact rfl
      | .bool false => exact rfl
      | .str s =>
        show parseValF (f + 1) ((34 :: (serStrBody s ++ [34])) ++ rest) =
          some (.str s, rest)
        rw [List.cons_append, List.append_assoc]
        show (parseStrBody (serStrBody s ++ (34 :: rest))).map
            (fun p => (Json.str p.1, p.2)) = some (.str s, rest)
        rw [parseStrBody_ser s rest]
        rfl
      | .num (.ofNat n) =>
        obtain ⟨d, ds, hser, hd, _⟩ := serNat_shape n
        obtain ⟨hd1, hd2⟩ := digitB_bounds d hd
        show parseValF (f + 1) (serNat n ++ rest) = some (.num (Int.ofNat n), rest)
        rw [hser, List.cons_append, parseValF_cons, if_neg (by omega),
          if_neg (by omega), if_neg (by omega), if_neg (by omega), if_neg (by omega),
          if_neg (by omega), if_neg (by omega), ← List.cons_append, ← hser,
          parseNatNum_ser n rest (sepOk_not_digit rest hsep)]
        rfl
      | .num (.negSucc m) =>
        show parseValF (f + 1) ((45 :: serNat (m + 1)) ++ rest) =
          some (.num (Int.negSucc m), rest)
        rw [List.cons_append, parseValF_cons, if_neg (by decide), if_neg (by decide),
          if_neg (by decide), if_neg (by decide), if_neg (by decide),
          if_neg (by decide), if_pos rfl,
          parseNatNum_ser (m + 1) rest (sepOk_not_digit rest hsep)]
        have hcast : ((m + 1 : Nat) : Int) = (m : Int) + 1 := by push_cast; ring
        show some (Json.num (-((m + 1 : Nat) : Int)), rest) =
          some (.num (Int.negSucc m), rest)
        rw [hcast, ← Int.negSucc_eq]
      | .arr xs =>
        have hlen : (serItems xs).length + 1 < f := by
          have h2 : (serJson (Json.arr xs)).length = (serItems xs).length + 2 := by
            show (91 :: (serItems xs ++ [93])).length = _
            simp
          omega
        show parseValF (f + 1) ((91 :: (serItems xs ++ [93])) ++ rest) =
          some (.arr xs, rest)
        rw [List.cons_append, List.append_assoc]
        show (parseItemsF f (serItems xs ++ (93 :: rest))).map
            (fun p => (Json.arr p.1, p.2)) = some (.arr xs, rest)
        rw [ihI xs rest hlen]
        rfl
      | .obj ms =>
        have hlen : (serMembers ms).length + 1 < f := by
          have h2 : (serJson (Json.obj ms)).length = (serMembers ms).length + 2 := by
            show (123 :: (serMembers ms ++ [125])).length = _
            simp
          omega
        show parseValF (f + 1) ((123 :: (serMembers ms ++ [125])) ++ rest) =
          some (.obj ms, rest)
        rw [List.cons_append, List.append_assoc]
        show (parseMembersF f (serMembers ms ++ (125 :: rest))).map
            (fun p => (Json.obj p.1, p.2)) = some (.obj ms, rest)
        rw [ihM ms rest hlen]
        rfl
    · intro xs rest hf
      match xs with
      | [] => exact rfl
      | x :: t =>
        obtain ⟨b, tl, hserx, hb93, _, _⟩ := serJson_head_sep x
        have hlen : (serJson x).length < f ∧ (serItemsTail t).length < f := by
          rw [serItems_cons] at hf
          simp only [List.length_append] at hf
          omega
        show parseItemsF (f + 1) ((serJson x ++ serItemsTail t) ++ 93 :: rest) =
          some (x :: t, rest)
        rw [List.append_assoc, hserx, List.cons_append, parseItemsF_cons,
          if_neg hb93, ← List.cons_append, ← hserx,
          ihV x (serItemsTail t ++ 93 :: rest) (sepOk_tail_items t rest) hlen.1]
        show (match parseItemsTailF f (serItemsTail t ++ 93 :: rest) with
              | none => none
              | some (vs, r2) => some (x :: vs, r2)) = some (x :: t, rest)
        rw [ihIT t rest hlen.2]
    · intro t rest hf
      match t with
      | [] => exact rfl
      | x :: t2 =>
        have hlen : (serJson x).length < f ∧ (serItemsTail t2).length < f := by
          rw [serItemsTail_cons] at hf
          simp only [List.length_cons, List.length_append] at hf
          omega
        show parseItemsTailF (f + 1)
            ((44 :: (serJson x ++ serItemsTail t2)) ++ 93 :: rest) =
          some (x :: t2, rest)
        rw [List.cons_append, parseItemsTailF_cons, if_neg (by decide), if_pos rfl,
          List.append_assoc,
          ihV x (serItemsTail t2 ++ 93 :: rest) (sepOk_tail_items t2 rest) hlen.1]
        show (match parseItemsTailF f (serItemsTail t2 ++ 93 :: rest) with
              | none => none
              | some (vs, r2) => some (x :: vs, r2)) = some (x :: t2, rest)
        rw [ihIT t2 rest hlen.2]
    · intro ms rest hf
      match ms with
      | [] => exact rfl
      | (k, v) :: t =>
        have hlen : (serJson v).length < f ∧ (serMembersTail t).length < f := by
          rw [serMembers_cons, serMember_def] at hf
          simp only [List.length_append, List.length_cons] at hf
          omega
        show parseMembersF (f + 1)
            ((serMember (k, v) ++ serMembersTail t) ++ 125 :: rest) =
          some ((k, v) :: t, rest)
        rw [serMember_def, List.append_assoc, List.cons_append, parseMembersF_cons,
          if_neg (by decide), if_pos rfl, List.append_assoc, cons2_append,
          parseStrBody_ser k
            (58 :: (serJson v ++ (serMembersTail t ++ 125 :: rest)))]
        show (match parseValF f
                (serJson v ++ (serMembersTail t ++ 125 :: rest)) with
              | none => none
              | some (v2, r3) =>
                match parseMembersTailF f r3 with
                | none => none
                | some (ms2, r4) => some ((k, v2) :: ms2, r4)) =
          some ((k, v) :: t, rest)
        rw [ihV v (serMembersTail t ++ 125 :: rest) (sepOk_tail_members t rest)
          hlen.1]
        show (match parseMembersTailF f (serMembersTail t ++ 125 :: rest) with
              | none => none
              | some (ms2, r4) => some ((k, v) :: ms2, r4)) =
          some ((k, v) :: t, rest)
        rw [ihMT t rest hlen.2]
    · intro t rest hf
      match t with
      | [] => exact rfl
      | (k, v) :: t2 =>
        have hlen : (serJson v).length < f ∧ (serMembersTail t2).length < f := by
          rw [serMembersTail_cons, serMember_def] at hf
          simp only [List.length_append, List.length_cons] at hf
          omega
        show parseMembersTailF (f + 1)
            ((44 :: (serMember (k, v) ++ serMembersTail t2)) ++ 125 :: rest) =
          some ((k, v) :: t2, rest)
        rw [List.cons_append, parseMembersTailF_cons, if_neg (by decide), if_pos rfl,
          serMember_def, List.append_assoc, List.cons_append]
        show (match parseStrBody
                ((serStrBody k ++ (34 :: 58 :: serJson v)) ++
                  (serMembersTail t2 ++ 125 :: rest)) with
              | none => none
              | some (k2, r1) =>
                match r1 with
                | 58 :: r2 =>
                  match parseValF f r2 with
                  | none => none
                  | some (v2, r3) =>
                    match parseMembersTailF f r3 with
                    | none => none
                    | some (ms2, r4) => some ((k2, v2) :: ms2, r4)
                | _ => none) = some ((k, v) :: t2, rest)
        rw [List.append_assoc, cons2_append,
          parseStrBody_ser k
            (58 :: (serJson v ++ (serMembersTail t2 ++ 125 :: rest)))]
        show (match parseValF f
                (serJson v ++ (serMembersTail t2 ++ 125 :: rest)) with
              | none => none
              | some (v2, r3) =>
                match parseMembersTailF f r3 with
                | none => none
                | some (ms2, r4) => some ((k, v2) :: ms2, r4)) =
          some ((k, v) :: t2, rest)
        rw [ihV v (serMembersTail t2 ++ 125 :: rest) (sepOk_tail_members t2 rest)
          hlen.1]
        show (match parseMembersTailF f (serMembersTail t2 ++ 125 :: rest) with
              | none => none
              | some (ms2, r4) => some ((k, v) :: ms2, r4)) =
          some ((k, v) :: t2, rest)
        rw [ihMT t2 rest hlen.2]

/-- Parsing the compact serialization of any value gives that value back. -/
theorem parseJson_serJson (v : Json) : parseJson (serJson v) = some v := by
  unfold parseJson
  have h := (parse_ser_mutual ((serJson v).length + 1)).1 v []
    (fun b hb => by simp at hb) (by omega)
  rw [List.append_nil] at h
  rw [h]

theorem readExact_all (l : List Nat) : readExact l l.length = some (l, []) := by
  simp [readExact]

/-- C1: encoding a (well-formed, within the outgoing cap) value and
decoding the frame with any cap at least the payload length succeeds
and yields a string that parses back to the same JSON value. -/
theorem encode_decode_roundtrip (v : Json) (max_size : Nat)
    (hwf : jsonWf v = true)
    (hout : (serJson v).length ≤ MAX_TO_BROWSER)
    (hcap : (serJson v).length ≤ max_size) :
    ∃ frame, encode_message v = .ok frame ∧
      decode_message frame max_size = (.ok (serJson v), []) ∧
      parseJson (serJson v) = some v := by
  have hlt : (serJson v).length < 4294967296 :=
    lt_of_le_of_lt hout (by norm_num [MAX_TO_BROWSER])
  have hc : ¬ ((serJson v).length > min max_size MAX_FROM_BROWSER) := by
    simp only [gt_iff_lt, not_lt]
    refine le_min hcap ?_
    rw [MAX_FROM_BROWSER_val]
    norm_num [MAX_TO_BROWSER] at hout
    omega
  have hopt : decode_message_opt (u32ToNeBytes (serJson v).length ++ serJson v)
      max_size = (.ok (some (serJson v)), []) := by
    unfold decode_message_opt
    rw [readExact_append _ _ 4 (u32ToNeBytes_length _)]
    simp only [u32_to_from _ hlt, gt_iff_lt]
    rw [if_neg hc, readExact_all]
    simp [serJson_valid v hwf]
  refine ⟨u32ToNeBytes (serJson v).length ++ serJson v,
    (encode_oversize_iff v).2 hout, ?_, parseJson_serJson v⟩
  simp only [decode_message, hopt]

theorem encode_decode_roundtrip_witness :
    ∃ frame,
      encode_message (.obj [([104, 101, 108, 108, 111],
        Json.str [119, 111, 114, 108, 100])]) = .ok frame ∧
      decode_message frame 67108864 =
        (.ok (serJson (.obj [([104, 101, 108, 108, 111],
          Json.str [119, 111, 114, 108, 100])])), []) ∧
      parseJson (serJson (.obj [([104, 101, 108, 108, 111],
        Json.str [119, 111, 114, 108, 100])])) =
        some (.obj [([104, 101, 108, 108, 111],
          Json.str [119, 111, 114, 108, 100])]) :=
  encode_decode_roundtrip
    (.obj [([104, 101, 108, 108, 111], Json.str [119, 111, 114, 108, 100])])
    67108864 (by decide) (by decide) (by decide)

end NativeMessaging
